import Mathlib

set_option maxRecDepth 1000000
set_option maxHeartbeats 2000000

/-!
Verification of the webhook-authentication and secret-encryption subsystem
of the deffatest-slack repository.

The two components under study are:
* `src/middleware/auth.js` — webhook signature verification
  (function `verifyDeffatestWebhook`), and
* `src/utils/encryption.js` — AES-256-GCM encryption of stored secrets
  (functions `getEncryptionKey`, `encrypt`, `decrypt`).

JavaScript strings are modelled as lists of characters.  Byte buffers
(Node `Buffer`) are modelled as lists of natural numbers below 256.
SHA-256 and HMAC-SHA256 (Node `crypto.createHmac`) are implemented
concretely and executably.  The AES-256-GCM core (Node
`crypto.createCipheriv` with algorithm aes-256-gcm) is an external
library primitive; it is modelled abstractly by a counter-mode keystream
function and a tag function, with the documented GCM contract
(length preservation, involutive keystream XOR, 16-byte deterministic tag,
tamper sensitivity) taken as hypotheses where a theorem needs them.
-/

namespace DeffatestSlack

/-- JavaScript strings, modelled as lists of Unicode characters. -/
abbrev JStr := List Char

/-! ## Hex encoding and decoding (Node Buffer semantics) -/

/-- The lowercase hexadecimal digit for a value below 16, as produced by
Node `Buffer.prototype.toString` with encoding hex. -/
def hexDigitChar (n : Nat) : Char :=
  if n < 10 then Char.ofNat (48 + n) else Char.ofNat (87 + n)

/-- Hex-encode a byte buffer, two lowercase hex digits per byte
(Node `buf.toString` with encoding hex). -/
def hexEncode : List Nat → List Char
  | [] => []
  | b :: bs => hexDigitChar (b / 16) :: hexDigitChar (b % 16) :: hexEncode bs

/-- The value of a hexadecimal digit character; case-insensitive, as in
Node hex decoding.  Returns none for a non-hex character. -/
def hexVal (c : Char) : Option Nat :=
  if 48 ≤ c.toNat ∧ c.toNat ≤ 57 then some (c.toNat - 48)
  else if 97 ≤ c.toNat ∧ c.toNat ≤ 102 then some (c.toNat - 87)
  else if 65 ≤ c.toNat ∧ c.toNat ≤ 70 then some (c.toNat - 55)
  else none

/-- A character is a hexadecimal digit. -/
def isHexChar (c : Char) : Bool := (hexVal c).isSome

/-- Every character of the string is a hexadecimal digit. -/
def isHexStr (s : JStr) : Bool := s.all isHexChar

/-- Node `Buffer.from(string, encoding hex)`: decodes pairs of hex digits
left to right, stopping at the first character that is not a hex digit and
discarding an incomplete trailing pair.  It never throws. -/
def nodeHexDecode : List Char → List Nat
  | c1 :: c2 :: rest =>
    match hexVal c1, hexVal c2 with
    | some h, some l => (16 * h + l) :: nodeHexDecode rest
    | _, _ => []
  | _ => []

/-! ## JavaScript primitives used by the middleware -/

/-- JavaScript falsiness of an optional string header or environment
variable: absent (undefined) or the empty string. -/
def jsFalsy : Option JStr → Bool
  | none => true
  | some s => s.isEmpty

/-- JavaScript whitespace skipped by `parseInt` (the common WhiteSpace and
LineTerminator code points). -/
def isJsWhitespace (c : Char) : Bool :=
  c.toNat == 32 || c.toNat == 9 || c.toNat == 10 || c.toNat == 13 ||
  c.toNat == 11 || c.toNat == 12 || c.toNat == 160 || c.toNat == 65279

/-- The value of a digit character in the given radix, via the
case-insensitive hex-digit table. -/
def digitValIn (radix : Nat) (c : Char) : Option Nat :=
  match hexVal c with
  | some v => if v < radix then some v else none
  | none => none

/-- Accumulate the value of the longest leading run of digits in the given
radix, starting from an accumulator. -/
def parseDigitsAux (radix : Nat) (acc : Nat) : List Char → Nat
  | [] => acc
  | c :: cs =>
    match digitValIn radix c with
    | some v => parseDigitsAux radix (acc * radix + v) cs
    | none => acc

/-- JavaScript `parseInt(s)` with the radix argument omitted: skip leading
whitespace, read an optional sign, auto-detect a 0x/0X hex prefix
(otherwise radix 10), then take the value of the longest leading digit run.
Returns none exactly when the result is NaN (no leading digit). -/
def jsParseInt (s : JStr) : Option Int :=
  let s1 := s.dropWhile isJsWhitespace
  let signed : Int × JStr :=
    match s1 with
    | c :: cs => if c = '-' then (-1, cs) else if c = '+' then (1, cs) else (1, s1)
    | [] => (1, [])
  let prefixed : Nat × JStr :=
    match signed.2 with
    | c0 :: cx :: cs =>
      if c0 = '0' ∧ (cx = 'x' ∨ cx = 'X') then (16, cs) else (10, signed.2)
    | _ => (10, signed.2)
  match prefixed.2 with
  | [] => none
  | c :: _ =>
    match digitValIn prefixed.1 c with
    | none => none
    | some _ => some (signed.1 * (parseDigitsAux prefixed.1 0 prefixed.2 : Nat))

/-! ## JSON values and JSON.stringify

The HTTP layer (the Bolt ExpressReceiver with its JSON body parser)
hands the middleware a parsed JSON value as `req.body`; the middleware
re-serializes it with `JSON.stringify`. -/

mutual
/-- A JSON value as produced by the HTTP layer body parser.  Numbers are
restricted to integers (the values exercised here); object fields keep
their insertion order, as JavaScript objects do. -/
inductive Json where
  | null : Json
  | bool (b : Bool) : Json
  | num (n : Int) : Json
  | str (s : JStr) : Json
  | arr (elems : JsonList) : Json
  | obj (fields : JsonFields) : Json

/-- A list of JSON array elements. -/
inductive JsonList where
  | nil : JsonList
  | cons (hd : Json) (tl : JsonList) : JsonList

/-- An ordered list of JSON object members. -/
inductive JsonFields where
  | nil : JsonFields
  | cons (key : JStr) (val : Json) (tl : JsonFields) : JsonFields
end

/-- JSON.stringify escaping of a single character inside a string literal. -/
def escapeJsonChar (c : Char) : List Char :=
  if c = '"' then ['\\', '"']
  else if c = '\\' then ['\\', '\\']
  else if c.toNat = 8 then ['\\', 'b']
  else if c.toNat = 9 then ['\\', 't']
  else if c.toNat = 10 then ['\\', 'n']
  else if c.toNat = 12 then ['\\', 'f']
  else if c.toNat = 13 then ['\\', 'r']
  else if c.toNat < 32 then
    ['\\', 'u', '0', '0', hexDigitChar (c.toNat / 16), hexDigitChar (c.toNat % 16)]
  else [c]

/-- A JSON string literal: quote and escape. -/
def jsonQuote (s : JStr) : JStr :=
  '"' :: s.foldr (fun c acc => escapeJsonChar c ++ acc) ['"']

/-- Join serialized items with commas, as JSON.stringify does for array
elements and object members. -/
def joinComma : List JStr → JStr
  | [] => []
  | [x] => x
  | x :: xs => x ++ ',' :: joinComma xs

mutual
/-- `JSON.stringify(body)` as invoked by the middleware on the parsed
request body. -/
def jsonStringify : Json → JStr
  | .null => (r"null").data
  | .bool true => (r"true").data
  | .bool false => (r"false").data
  | .num n => (toString n).data
  | .str s => jsonQuote s
  | .arr es => '[' :: stringifyElems es ++ [']']
  | .obj fs => '{' :: stringifyFields fs ++ ['}']

/-- Serialize the comma-separated elements of a JSON array. -/
def stringifyElems : JsonList → JStr
  | .nil => []
  | .cons j .nil => jsonStringify j
  | .cons j tl => jsonStringify j ++ ',' :: stringifyElems tl

/-- Serialize the comma-separated members of a JSON object. -/
def stringifyFields : JsonFields → JStr
  | .nil => []
  | .cons k v .nil => jsonQuote k ++ ':' :: jsonStringify v
  | .cons k v tl => jsonQuote k ++ ':' :: jsonStringify v ++ ',' :: stringifyFields tl
end

/-! ## UTF-8 encoding

Node `hmac.update(string)` and `cipher.update(plaintext, encoding utf8)`
consume the UTF-8 bytes of the string. -/

/-- The UTF-8 byte sequence of a single Unicode scalar value. -/
def utf8Encode (c : Char) : List Nat :=
  let n := c.toNat
  if n < 128 then [n]
  else if n < 2048 then [192 + n / 64, 128 + n % 64]
  else if n < 65536 then [224 + n / 4096, 128 + n / 64 % 64, 128 + n % 64]
  else [240 + n / 262144, 128 + n / 4096 % 64, 128 + n / 64 % 64, 128 + n % 64]

/-- The UTF-8 bytes of a string. -/
def utf8Bytes (s : JStr) : List Nat :=
  s.foldr (fun c acc => utf8Encode c ++ acc) []

/-! ## SHA-256 and HMAC-SHA256 (Node crypto.createHmac) -/

/-- Truncate to a 32-bit word. -/
def w32 (n : Nat) : Nat := n % 4294967296

/-- Right-rotation of a 32-bit word. -/
def rotr32 (n x : Nat) : Nat := (x >>> n) ||| w32 (x <<< (32 - n))

/-- SHA-256 small sigma 0. -/
def smallSigma0 (x : Nat) : Nat := rotr32 7 x ^^^ rotr32 18 x ^^^ (x >>> 3)

/-- SHA-256 small sigma 1. -/
def smallSigma1 (x : Nat) : Nat := rotr32 17 x ^^^ rotr32 19 x ^^^ (x >>> 10)

/-- SHA-256 big Sigma 0. -/
def bigSigma0 (x : Nat) : Nat := rotr32 2 x ^^^ rotr32 13 x ^^^ rotr32 22 x

/-- SHA-256 big Sigma 1. -/
def bigSigma1 (x : Nat) : Nat := rotr32 6 x ^^^ rotr32 11 x ^^^ rotr32 25 x

/-- SHA-256 choice function. -/
def shaCh (x y z : Nat) : Nat := (x &&& y) ^^^ ((x ^^^ 4294967295) &&& z)

/-- SHA-256 majority function. -/
def shaMaj (x y z : Nat) : Nat := (x &&& y) ^^^ (x &&& z) ^^^ (y &&& z)

/-- The SHA-256 round constants (FIPS 180-4), written in decimal. -/
def sha256K : List Nat :=
  [1116352408, 1899447441, 3049323471, 3921009573, 961987163, 1508970993,
   2453635748, 2870763221, 3624381080, 310598401, 607225278, 1426881987,
   1925078388, 2162078206, 2614888103, 3248222580, 3835390401, 4022224774,
   264347078, 604807628, 770255983, 1249150122, 1555081692, 1996064986,
   2554220882, 2821834349, 2952996808, 3210313671, 3336571891, 3584528711,
   113926993, 338241895, 666307205, 773529912, 1294757372, 1396182291,
   1695183700, 1986661051, 2177026350, 2456956037, 2730485921, 2820302411,
   3259730800, 3345764771, 3516065817, 3600352804, 4094571909, 275423344,
   430227734, 506948616, 659060556, 883997877, 958139571, 1322822218,
   1537002063, 1747873779, 1955562222, 2024104815, 2227730452, 2361852424,
   2428436474, 2756734187, 3204031479, 3329325298]

/-- The SHA-256 initial hash state (FIPS 180-4), written in decimal. -/
def sha256H0 : List Nat :=
  [1779033703, 3144134277, 1013904242, 2773480762,
   1359893119, 2600822924, 528734635, 1541459225]

/-- Extend a 16-word message block by the given number of schedule words. -/
def extendW : Nat → List Nat → List Nat
  | 0, ws => ws
  | n + 1, ws =>
    let len := ws.length
    let w := w32 (ws.getD (len - 16) 0 + smallSigma0 (ws.getD (len - 15) 0) +
                  ws.getD (len - 7) 0 + smallSigma1 (ws.getD (len - 2) 0))
    extendW n (ws ++ [w])

/-- The 64 SHA-256 rounds over the working state [a,b,c,d,e,f,g,h]. -/
def shaRounds : List Nat → List Nat → List Nat → List Nat
  | k :: ks, w :: ws, [a, b, c, d, e, f, g, h] =>
    let t1 := w32 (h + bigSigma1 e + shaCh e f g + k + w)
    let t2 := w32 (bigSigma0 a + shaMaj a b c)
    shaRounds ks ws [w32 (t1 + t2), a, b, c, w32 (d + t1), e, f, g]
  | _, _, st => st

/-- Interpret a byte list as big-endian 32-bit words, four bytes each. -/
def bytesToWords : List Nat → List Nat
  | b0 :: b1 :: b2 :: b3 :: rest =>
    (((b0 * 256 + b1) * 256 + b2) * 256 + b3) :: bytesToWords rest
  | _ => []

/-- The four big-endian bytes of a 32-bit word. -/
def wordToBytes (w : Nat) : List Nat :=
  [w / 16777216 % 256, w / 65536 % 256, w / 256 % 256, w % 256]

/-- One SHA-256 compression: run the rounds on a 16-word block and add the
result back into the state. -/
def compressBlock (st block : List Nat) : List Nat :=
  let ws := extendW 48 block
  let st2 := shaRounds sha256K ws st
  List.zipWith (fun x y => w32 (x + y)) st st2

/-- SHA-256 padding: a 0x80 byte, zeros to 56 mod 64, then the bit length
as a 64-bit big-endian integer. -/
def sha256Pad (msg : List Nat) : List Nat :=
  let len := msg.length
  let bitLen := len * 8
  let padZeros := (119 - len % 64) % 64
  msg ++ 128 :: List.replicate padZeros 0 ++
    [bitLen / 72057594037927936 % 256, bitLen / 281474976710656 % 256,
     bitLen / 1099511627776 % 256, bitLen / 4294967296 % 256,
     bitLen / 16777216 % 256, bitLen / 65536 % 256, bitLen / 256 % 256, bitLen % 256]

/-- Split a byte list into 64-byte chunks, with explicit fuel so that the
definition is structurally recursive; the wrapper supplies the length as
fuel, which suffices because each step consumes at least one byte. -/
def toChunksAux : Nat → List Nat → List (List Nat)
  | 0, _ => []
  | _, [] => []
  | fuel + 1, bs => bs.take 64 :: toChunksAux fuel (bs.drop 64)

/-- Split a byte list into 64-byte chunks. -/
def toChunks (bs : List Nat) : List (List Nat) := toChunksAux bs.length bs

/-- SHA-256 of a byte sequence, as a 32-byte digest. -/
def sha256Bytes (msg : List Nat) : List Nat :=
  let chunks := toChunks (sha256Pad msg)
  let final := chunks.foldl (fun st ch => compressBlock st (bytesToWords ch)) sha256H0
  final.foldr (fun w acc => wordToBytes w ++ acc) []

/-- HMAC-SHA256 over byte sequences (RFC 2104 with a 64-byte block):
hash an over-long key, zero-pad, and run the nested inner/outer hashes. -/
def hmacSha256Bytes (key msg : List Nat) : List Nat :=
  let k1 := if 64 < key.length then sha256Bytes key else key
  let k2 := k1 ++ List.replicate (64 - k1.length) 0
  let ipad := k2.map (fun b => b ^^^ 54)
  let opad := k2.map (fun b => b ^^^ 92)
  sha256Bytes (opad ++ sha256Bytes (ipad ++ msg))

/-- Node `crypto.createHmac(sha256, key).update(msg).digest()` for string
key and message: HMAC-SHA256 over their UTF-8 bytes. -/
def hmacSha256Str (key msg : JStr) : List Nat :=
  hmacSha256Bytes (utf8Bytes key) (utf8Bytes msg)

/-! ## The webhook verifier (src/middleware/auth.js, verifyDeffatestWebhook) -/

/-- The observable outcome of `verifyDeffatestWebhook`: one response per
early-return branch of the middleware, or passing control to the next
handler.  `missingSignature` is the 401 Missing signature response,
`invalidTimestamp` the 401 Invalid timestamp response (the stale-request
rejection), `serverConfigurationError` the 500 Server configuration error
response, `invalidSignature` the 401 Invalid signature response (both the
length-mismatch and the comparison-failure branch), and `ok` the call of
`next()`. -/
inductive VerifyResult where
  | missingSignature : VerifyResult
  | invalidTimestamp : VerifyResult
  | serverConfigurationError : VerifyResult
  | invalidSignature : VerifyResult
  | ok : VerifyResult
deriving DecidableEq, Repr

/-- The five-minute replay window of the middleware, in milliseconds. -/
def fiveMinutesMs : Nat := 300000

/-- `verifyDeffatestWebhook` from src/middleware/auth.js.  Inputs: the two
request headers (absent or string), the body as parsed by the HTTP layer,
the DEFFATEST_WEBHOOK_SECRET environment variable (absent or string), and
`Date.now()`.  The middleware checks header presence, timestamp freshness
via `parseInt` and a five-minute window, secret configuration, and finally
compares the hex-decoded received signature against the hex-decoded
`HMAC-SHA256(secret, timestamp + JSON.stringify(req.body))`, rejecting on
buffer length mismatch and then on byte inequality. -/
def verifyDeffatestWebhook (signature timestamp : Option JStr) (body : Json)
    (webhookSecret : Option JStr) (now : Int) : VerifyResult :=
  if jsFalsy signature || jsFalsy timestamp then .missingSignature
  else
    let ts := timestamp.getD []
    match jsParseInt ts with
    | none => .invalidTimestamp
    | some timestampMs =>
      if fiveMinutesMs < (now - timestampMs).natAbs then .invalidTimestamp
      else
        match webhookSecret with
        | none => .serverConfigurationError
        | some secret =>
          if secret.isEmpty then .serverConfigurationError
          else
            let bodyStr := jsonStringify body
            let expectedSignature := hexEncode (hmacSha256Str secret (ts ++ bodyStr))
            let signatureBuffer := nodeHexDecode (signature.getD [])
            let expectedBuffer := nodeHexDecode expectedSignature
            if signatureBuffer.length ≠ expectedBuffer.length then .invalidSignature
            else if signatureBuffer ≠ expectedBuffer then .invalidSignature
            else .ok

/-! ## The secret cipher (src/utils/encryption.js)

`encrypt`/`decrypt` run AES-256-GCM through Node crypto.  The AES-GCM
core is an external library primitive, modelled abstractly by two
functions passed to the definitions: `ctrMode key iv data` is the
GCM counter-mode keystream XOR (its own inverse, length-preserving) used
for both encryption and decryption of the payload, and `gcmTag key iv ct`
is the 16-byte authentication tag that GCM computes over a ciphertext,
which `decipher.final()` compares against the tag installed by
`setAuthTag`, throwing on mismatch.  Node error behaviours of
`createCipheriv`/`createDecipheriv`/`setAuthTag` that the claims touch
are modelled explicitly: a key buffer that is not 32 bytes and an empty
IV are rejected when the cipher object is created, and a GCM tag whose
length is not one of 4, 8, 12, 13, 14, 15, 16 bytes is rejected by
`setAuthTag`. -/

/-- The distinguishable failure kinds of the cipher component.
`configError` is the explicit throw of `getEncryptionKey`; `formatError`
is the explicit Invalid encrypted data format throw of `decrypt`;
`authenticationError` is the tag-mismatch throw of `decipher.final()`;
the remaining kinds are the Node crypto argument-validation throws. -/
inductive CipherError where
  | configError : CipherError
  | invalidKeyLength : CipherError
  | invalidIV : CipherError
  | invalidTagLength : CipherError
  | formatError : CipherError
  | authenticationError : CipherError
deriving DecidableEq, Repr

/-- `getEncryptionKey` from src/utils/encryption.js: reads ENCRYPTION_KEY,
throws unless the variable is set, non-empty and exactly 64 characters
long, and returns `Buffer.from(key, encoding hex)`.  Note the source
checks only the character count, never hex validity. -/
def getEncryptionKey (envKey : Option JStr) : Except CipherError (List Nat) :=
  match envKey with
  | none => .error .configError
  | some key => if key.length ≠ 64 then .error .configError else .ok (nodeHexDecode key)

/-- The GCM tag lengths accepted by Node `decipher.setAuthTag` for GCM
when no explicit authTagLength option was given. -/
def gcmTagLengthOk (n : Nat) : Bool :=
  n == 16 || n == 15 || n == 14 || n == 13 || n == 12 || n == 8 || n == 4

section AeadModel

variable (ctrMode : List Nat → List Nat → List Nat → List Nat)
variable (gcmTag : List Nat → List Nat → List Nat → List Nat)

/-- `encrypt` from src/utils/encryption.js: a falsy plaintext returns
null; otherwise load the key, draw a 16-byte random IV (here a
parameter, since randomness is ambient), run AES-256-GCM, and format the
result as iv:authTag:ciphertext with every component hex-encoded.  The
plaintext is represented by its UTF-8 bytes, which is exactly the byte
sequence `cipher.update(plaintext, encoding utf8)` consumes. -/
def encrypt (envKey : Option JStr) (iv plaintext : List Nat) :
    Except CipherError (Option JStr) :=
  if plaintext.isEmpty then .ok none
  else
    match getEncryptionKey envKey with
    | .error e => .error e
    | .ok key =>
      if key.length ≠ 32 then .error .invalidKeyLength
      else if iv.isEmpty then .error .invalidIV
      else
        let encrypted := ctrMode key iv plaintext
        let authTag := gcmTag key iv encrypted
        .ok (some (hexEncode iv ++ ':' :: hexEncode authTag ++ ':' :: hexEncode encrypted))

/-- JavaScript `encryptedData.split(':')`. -/
def splitOnColon : List Char → List (List Char)
  | [] => [[]]
  | c :: cs =>
    if c = ':' then [] :: splitOnColon cs
    else
      match splitOnColon cs with
      | seg :: rest => (c :: seg) :: rest
      | [] => [[c]]

/-- `decrypt` from src/utils/encryption.js: a falsy input returns null;
otherwise load the key, split on colons, throw the Invalid encrypted data
format error unless there are exactly three parts (hex validity is NOT
checked), hex-decode IV and tag leniently, create the decipher (which
validates key and IV), install the tag (which validates its length), and
run authenticated decryption: `decipher.final()` throws the
authentication error unless the received tag equals the GCM tag of the
received ciphertext (truncated to the received tag length), and on
success the plaintext bytes are returned. -/
def decrypt (envKey : Option JStr) (encryptedData : Option JStr) :
    Except CipherError (Option (List Nat)) :=
  match encryptedData with
  | none => .ok none
  | some s =>
    if s.isEmpty then .ok none
    else
      match getEncryptionKey envKey with
      | .error e => .error e
      | .ok key =>
        let parts := splitOnColon s
        if parts.length ≠ 3 then .error .formatError
        else
          let iv := nodeHexDecode (parts.getD 0 [])
          let authTag := nodeHexDecode (parts.getD 1 [])
          let ciphertext := nodeHexDecode (parts.getD 2 [])
          if key.length ≠ 32 then .error .invalidKeyLength
          else if iv.isEmpty then .error .invalidIV
          else if ¬ gcmTagLengthOk authTag.length then .error .invalidTagLength
          else if authTag ≠ (gcmTag key iv ciphertext).take authTag.length then
            .error .authenticationError
          else .ok (some (ctrMode key iv ciphertext))

end AeadModel

/-! ## Serializations of a JSON body

Modelled from the spec: §6 — the inbound webhook body is a JSON document,
parsed by the HTTP layer (the Bolt ExpressReceiver JSON body parser,
external to this repository) before the middleware runs.  `Serializes raw
body` says that the raw request text `raw` is a JSON serialization of the
parsed value `body`, per the JSON grammar with insignificant whitespace
around tokens; numerals are restricted to their canonical form and
strings to escape-free characters (a sub-grammar of full JSON, which is
all the claims need). -/

/-- Insignificant whitespace of the JSON grammar. -/
def isJsonWs (c : Char) : Bool :=
  c == ' ' || c == '\t' || c == '\n' || c == '\r'

/-- A character that may appear unescaped inside a JSON string literal
of the escape-free sub-grammar. -/
def jsonPlainChar (c : Char) : Prop :=
  c ≠ '"' ∧ c ≠ '\\' ∧ 32 ≤ c.toNat

mutual
/-- `SerializesVal raw j`: `raw` is a serialization of the value `j`
with no surrounding whitespace. -/
inductive SerializesVal : JStr → Json → Prop where
  | nullLit : SerializesVal ['n', 'u', 'l', 'l'] .null
  | trueLit : SerializesVal ['t', 'r', 'u', 'e'] (.bool true)
  | falseLit : SerializesVal ['f', 'a', 'l', 's', 'e'] (.bool false)
  | numLit (n : Int) : SerializesVal (toString n).data (.num n)
  | strLit (s : JStr) (h : ∀ c ∈ s, jsonPlainChar c) :
      SerializesVal ('"' :: s ++ ['"']) (.str s)
  | arrEmpty (w : JStr) (hw : ∀ c ∈ w, isJsonWs c = true) :
      SerializesVal ('[' :: w ++ [']']) (.arr .nil)
  | arrElems (raw : JStr) (es : JsonList) (h : SerializesElems raw es) :
      SerializesVal ('[' :: raw ++ [']']) (.arr es)
  | objEmpty (w : JStr) (hw : ∀ c ∈ w, isJsonWs c = true) :
      SerializesVal ('{' :: w ++ ['}']) (.obj .nil)
  | objFields (raw : JStr) (fs : JsonFields) (h : SerializesFields raw fs) :
      SerializesVal ('{' :: raw ++ ['}']) (.obj fs)

/-- A JSON element: a value with optional whitespace on both sides. -/
inductive SerializesElem : JStr → Json → Prop where
  | mk (w1 w2 core : JStr) (j : Json)
      (hw1 : ∀ c ∈ w1, isJsonWs c = true) (hw2 : ∀ c ∈ w2, isJsonWs c = true)
      (h : SerializesVal core j) :
      SerializesElem (w1 ++ core ++ w2) j

/-- The comma-separated element list of a non-empty JSON array. -/
inductive SerializesElems : JStr → JsonList → Prop where
  | single (raw : JStr) (j : Json) (h : SerializesElem raw j) :
      SerializesElems raw (.cons j .nil)
  | cons (raw1 raw2 : JStr) (j : Json) (js : JsonList)
      (h1 : SerializesElem raw1 j) (h2 : SerializesElems raw2 js) :
      SerializesElems (raw1 ++ ',' :: raw2) (.cons j js)

/-- The comma-separated member list of a non-empty JSON object; each
member is whitespace, a key string, whitespace, a colon, and an element. -/
inductive SerializesFields : JStr → JsonFields → Prop where
  | single (w1 w2 rawv : JStr) (k : JStr) (v : Json)
      (hk : ∀ c ∈ k, jsonPlainChar c)
      (hw1 : ∀ c ∈ w1, isJsonWs c = true) (hw2 : ∀ c ∈ w2, isJsonWs c = true)
      (hv : SerializesElem rawv v) :
      SerializesFields (w1 ++ '"' :: k ++ '"' :: w2 ++ ':' :: rawv) (.cons k v .nil)
  | cons (w1 w2 rawv rest : JStr) (k : JStr) (v : Json) (fs : JsonFields)
      (hk : ∀ c ∈ k, jsonPlainChar c)
      (hw1 : ∀ c ∈ w1, isJsonWs c = true) (hw2 : ∀ c ∈ w2, isJsonWs c = true)
      (hv : SerializesElem rawv v) (hrest : SerializesFields rest fs) :
      SerializesFields (w1 ++ '"' :: k ++ '"' :: w2 ++ ':' :: rawv ++ ',' :: rest)
        (.cons k v fs)
end

/-- `Serializes raw body`: the raw request text is a JSON serialization
of the parsed body (a JSON text is an element: a value with optional
surrounding whitespace). -/
def Serializes (raw : JStr) (j : Json) : Prop := SerializesElem raw j

/-! ## A concrete authenticated-cipher instance

A small concrete instance of the abstract GCM interface, used to
exercise the cipher theorems on explicit inputs: the keystream is a
byte counter seeded from key and IV and combined by XOR (hence length
preserving and involutive), and the tag is the XOR-fold of the
ciphertext padded to 16 bytes (hence deterministic and sensitive to any
single-byte substitution). -/

/-- Keystream byte at position `i` for seed `seed`. -/
def keystreamByte (seed i : Nat) : Nat := (seed + i) % 256

/-- XOR the keystream into a byte list, starting at position `i`. -/
def ctrXAux (seed : Nat) : Nat → List Nat → List Nat
  | _, [] => []
  | i, b :: bs => (b ^^^ keystreamByte seed i) :: ctrXAux seed (i + 1) bs

/-- The concrete counter-mode function of the instance. -/
def ctrX (key iv msg : List Nat) : List Nat := ctrXAux (key.sum + iv.sum) 0 msg

/-- XOR-fold of a byte list. -/
def xorSum : List Nat → Nat
  | [] => 0
  | b :: bs => b ^^^ xorSum bs

/-- The concrete 16-byte tag function of the instance. -/
def gtagX (key iv ct : List Nat) : List Nat :=
  ((key.sum + iv.sum) % 256 ^^^ xorSum ct) :: List.replicate 15 0

/-! ## Concrete inputs used by counterexamples and witnesses -/

/-- The webhook shared secret of the worked example in the spec. -/
def secC : JStr := (r"whsec").data

/-- The timestamp header of the worked example. -/
def tsC : JStr := (r"1000").data

/-- A timestamp header that is not a decimal numeral but has the numeric
prefix 1000. -/
def tsC9 : JStr := (r"1000abc").data

/-- The parsed webhook body of the worked example: the empty JSON object. -/
def body0 : Json := .obj .nil

/-- A raw request text that parses to the empty JSON object but differs
from its JSON.stringify rendering: a space between the braces. -/
def rawBody0 : JStr := ['{', ' ', '}']

/-- Hex encoding of HMAC-SHA256 with secret whsec over the text 1000{}
(timestamp followed by the re-serialized body). -/
def sigStrC : JStr :=
  (r"d1e997f66f49332d1ebfca39b94dfaf55d263695680111dfa07613d599f614cc").data

/-- Hex encoding of HMAC-SHA256 with secret whsec over the raw text
1000 followed by the three characters of `rawBody0`. -/
def sigRawC : JStr :=
  (r"fd255100305c54818b5b64240f233d8ecefac68abed62d3e4087470ec4d1ed94").data

/-- Hex encoding of HMAC-SHA256 with secret whsec over the text
1000abc{} (the non-numeric timestamp header followed by the
re-serialized body). -/
def sigC9 : JStr :=
  (r"83eb5c24ae73f4d45bee5dda82abfefb7e7f291fbd7d0f39e8e88dbea44aa430").data

/-- A well-formed 64-character encryption key: 64 zero digits. -/
def key0 : JStr := List.replicate 64 '0'

/-- A 64-character value that is not hex: 64 letters z. -/
def keyZ : JStr := List.replicate 64 'z'

/-- A 16-byte all-zero initialization vector. -/
def iv0 : List Nat := List.replicate 16 0

/-- A second 16-byte initialization vector, differing from `iv0`. -/
def iv1 : List Nat := 1 :: List.replicate 15 0

/-- A one-byte plaintext. -/
def pt0 : List Nat := [170]

/-- The encoded triple produced by the concrete cipher instance for
`key0`, `iv0`, `pt0`. -/
def enc0 : JStr :=
  List.replicate 32 '0' ++ ':' :: 'a' :: 'a' :: List.replicate 30 '0' ++
    ':' :: 'a' :: 'a' :: []

/-- `enc0` with the single hex character at position 33 (the first digit
of the tag segment) flipped from lowercase a to uppercase A. -/
def enc0Tampered : JStr :=
  List.replicate 32 '0' ++ ':' :: 'A' :: 'a' :: List.replicate 30 '0' ++
    ':' :: 'a' :: 'a' :: []

/-! ## Lemmas: hex encoding and decoding -/

theorem hexVal_hexDigitChar {n : Nat} (h : n < 16) : hexVal (hexDigitChar n) = some n := by
  interval_cases n <;> decide

theorem hexVal_lt {c : Char} {v : Nat} (h : hexVal c = some v) : v < 16 := by
  unfold hexVal at h
  split_ifs at h with h1 h2 h3 <;> simp only [Option.some.injEq] at h <;> omega

theorem ne_colon_of_hexVal {c : Char} {v : Nat} (h : hexVal c = some v) : c ≠ ':' := by
  intro hc
  subst hc
  rw [show hexVal ':' = none from by decide] at h
  cases h

theorem hexEncode_length (bs : List Nat) : (hexEncode bs).length = 2 * bs.length := by
  induction bs with
  | nil => rfl
  | cons b bs ih => simp only [hexEncode, List.length_cons, ih]; omega

theorem hexVal_of_mem_hexEncode {bs : List Nat} (hb : ∀ b ∈ bs, b < 256) :
    ∀ c ∈ hexEncode bs, ∃ v, v < 16 ∧ hexVal c = some v := by
  induction bs with
  | nil => intro c hc; simp [hexEncode] at hc
  | cons b bs ih =>
    have hblt : b < 256 := hb b (List.mem_cons_self b bs)
    have hhi : b / 16 < 16 := Nat.div_lt_of_lt_mul (by omega)
    have hlo : b % 16 < 16 := Nat.mod_lt _ (by omega)
    intro c hc
    simp only [hexEncode, List.mem_cons] at hc
    rcases hc with rfl | hc
    · exact ⟨b / 16, hhi, hexVal_hexDigitChar hhi⟩
    rcases hc with rfl | hc
    · exact ⟨b % 16, hlo, hexVal_hexDigitChar hlo⟩
    · exact ih (fun x hx => hb x (List.mem_cons_of_mem _ hx)) c hc

theorem colon_not_mem_hexEncode {bs : List Nat} (hb : ∀ b ∈ bs, b < 256) :
    ':' ∉ hexEncode bs := by
  intro hmem
  obtain ⟨v, _, hv⟩ := hexVal_of_mem_hexEncode hb ':' hmem
  exact ne_colon_of_hexVal hv rfl

theorem isHexStr_hexEncode {bs : List Nat} (hb : ∀ b ∈ bs, b < 256) :
    isHexStr (hexEncode bs) = true := by
  simp only [isHexStr, List.all_eq_true]
  intro c hc
  obtain ⟨v, _, hv⟩ := hexVal_of_mem_hexEncode hb c hc
  simp [isHexChar, hv]

theorem nodeHexDecode_hexEncode {bs : List Nat} (hb : ∀ b ∈ bs, b < 256) :
    nodeHexDecode (hexEncode bs) = bs := by
  induction bs with
  | nil => rfl
  | cons b bs ih =>
    have hblt : b < 256 := hb b (List.mem_cons_self b bs)
    have hhi : b / 16 < 16 := Nat.div_lt_of_lt_mul (by omega)
    have hlo : b % 16 < 16 := Nat.mod_lt _ (by omega)
    simp only [hexEncode, nodeHexDecode, hexVal_hexDigitChar hhi, hexVal_hexDigitChar hlo,
      ih (fun x hx => hb x (List.mem_cons_of_mem _ hx))]
    congr 1
    omega

theorem nodeHexDecode_lt : ∀ (s : JStr), ∀ b ∈ nodeHexDecode s, b < 256
  | [] => by simp [nodeHexDecode]
  | [c] => by simp [nodeHexDecode]
  | c1 :: c2 :: rest => by
    intro b hb
    rcases h1 : hexVal c1 with _ | v1 <;> rcases h2 : hexVal c2 with _ | v2 <;>
      simp only [nodeHexDecode, h1, h2, List.not_mem_nil, List.mem_cons] at hb
    rcases hb with rfl | hb
    · have := hexVal_lt h1
      have := hexVal_lt h2
      omega
    · exact nodeHexDecode_lt rest b hb

theorem nodeHexDecode_length_of_hex : ∀ (s : JStr), isHexStr s = true →
    (nodeHexDecode s).length = s.length / 2
  | [], _ => rfl
  | [c], _ => by simp [nodeHexDecode]
  | c1 :: c2 :: rest, h => by
    simp only [isHexStr, List.all_cons, Bool.and_eq_true, isHexChar,
      Option.isSome_iff_exists] at h
    obtain ⟨⟨v1, hv1⟩, ⟨v2, hv2⟩, hrest⟩ := h
    have ih := nodeHexDecode_length_of_hex rest (by simpa [isHexStr] using hrest)
    simp only [nodeHexDecode, hv1, hv2, List.length_cons, ih]
    omega

theorem hexEncode_injective {bs1 bs2 : List Nat} (h1 : ∀ b ∈ bs1, b < 256)
    (h2 : ∀ b ∈ bs2, b < 256) (h : hexEncode bs1 = hexEncode bs2) : bs1 = bs2 := by
  have := congrArg nodeHexDecode h
  rwa [nodeHexDecode_hexEncode h1, nodeHexDecode_hexEncode h2] at this

/-! ## Lemmas: JavaScript split on colon -/

theorem splitOnColon_ne_nil : ∀ (s : JStr), splitOnColon s ≠ []
  | [] => by simp [splitOnColon]
  | c :: cs => by
    unfold splitOnColon
    split_ifs
    · simp
    · rcases h : splitOnColon cs with _ | ⟨seg, rest⟩
      · simp
      · simp

theorem splitOnColon_no_colon {s : JStr} (h : ':' ∉ s) : splitOnColon s = [s] := by
  induction s with
  | nil => rfl
  | cons c cs ih =>
    have hc : ¬ c = ':' := fun hg => h (hg ▸ List.mem_cons_self c cs)
    have hcs : ':' ∉ cs := fun hg => h (List.mem_cons_of_mem _ hg)
    simp only [splitOnColon, if_neg hc, ih hcs]

theorem splitOnColon_cons_ne {c : Char} (hc : ¬ c = ':') {cs seg : JStr}
    {rest2 : List JStr} (h : splitOnColon cs = seg :: rest2) :
    splitOnColon (c :: cs) = (c :: seg) :: rest2 := by
  simp [splitOnColon, if_neg hc, h]

theorem splitOnColon_append {a : JStr} (rest : JStr) (h : ':' ∉ a) :
    splitOnColon (a ++ ':' :: rest) = a :: splitOnColon rest := by
  induction a with
  | nil => simp [splitOnColon]
  | cons c cs ih =>
    have hc : ¬ c = ':' := fun hg => h (hg ▸ List.mem_cons_self c cs)
    have hcs : ':' ∉ cs := fun hg => h (List.mem_cons_of_mem _ hg)
    exact splitOnColon_cons_ne hc (ih hcs)

/-- The split of a well-formed iv:tag:ciphertext triple whose segments
are colon-free. -/
theorem splitOnColon_triple {a b c : JStr} (ha : ':' ∉ a) (hb : ':' ∉ b) (hc : ':' ∉ c) :
    splitOnColon (a ++ ':' :: b ++ ':' :: c) = [a, b, c] := by
  rw [show a ++ ':' :: b ++ ':' :: c = a ++ ':' :: (b ++ ':' :: c) by simp,
    splitOnColon_append _ ha, splitOnColon_append _ hb, splitOnColon_no_colon hc]

/-! ## Lemmas: digest bytes are bytes -/

theorem wordToBytes_lt (w : Nat) : ∀ b ∈ wordToBytes w, b < 256 := by
  intro b hb
  simp only [wordToBytes, List.mem_cons, List.not_mem_nil, or_false] at hb
  rcases hb with rfl | rfl | rfl | rfl <;> omega

theorem foldr_wordToBytes_lt (ws : List Nat) :
    ∀ b ∈ ws.foldr (fun w acc => wordToBytes w ++ acc) [], b < 256 := by
  induction ws with
  | nil => simp
  | cons w ws ih =>
    intro b hb
    simp only [List.foldr_cons, List.mem_append] at hb
    rcases hb with hb | hb
    · exact wordToBytes_lt w b hb
    · exact ih b hb

theorem sha256Bytes_lt (m : List Nat) : ∀ b ∈ sha256Bytes m, b < 256 := by
  intro b hb
  simp only [sha256Bytes] at hb
  exact foldr_wordToBytes_lt _ b hb

theorem hmacSha256Str_lt (key msg : JStr) : ∀ b ∈ hmacSha256Str key msg, b < 256 := by
  intro b hb
  simp only [hmacSha256Str, hmacSha256Bytes] at hb
  exact sha256Bytes_lt _ b hb

/-! ## Lemmas: the concrete cipher instance satisfies the GCM contract -/

theorem ctrXAux_length (seed : Nat) :
    ∀ (i : Nat) (bs : List Nat), (ctrXAux seed i bs).length = bs.length
  | _, [] => rfl
  | i, b :: bs => by simp [ctrXAux, ctrXAux_length seed (i + 1) bs]

theorem ctrX_length (key iv msg : List Nat) : (ctrX key iv msg).length = msg.length :=
  ctrXAux_length _ 0 msg

theorem ctrXAux_lt (seed : Nat) : ∀ (i : Nat) (bs : List Nat), (∀ b ∈ bs, b < 256) →
    ∀ b ∈ ctrXAux seed i bs, b < 256
  | _, [], _ => by simp [ctrXAux]
  | i, b :: bs, h => by
    intro x hx
    simp only [ctrXAux, List.mem_cons] at hx
    rcases hx with rfl | hx
    · have h1 : b < 2 ^ 8 := by simpa using h b (List.mem_cons_self _ _)
      have h2 : keystreamByte seed i < 2 ^ 8 := by
        simpa [keystreamByte] using Nat.mod_lt (seed + i) (show 0 < 256 by omega)
      simpa using Nat.xor_lt_two_pow h1 h2
    · exact ctrXAux_lt seed (i + 1) bs (fun y hy => h y (List.mem_cons_of_mem _ hy)) x hx

theorem ctrX_lt (key iv msg : List Nat) (h : ∀ b ∈ msg, b < 256) :
    ∀ b ∈ ctrX key iv msg, b < 256 :=
  ctrXAux_lt _ 0 msg h

theorem ctrXAux_invol (seed : Nat) : ∀ (i : Nat) (bs : List Nat),
    ctrXAux seed i (ctrXAux seed i bs) = bs
  | _, [] => rfl
  | i, b :: bs => by
    simp [ctrXAux, ctrXAux_invol seed (i + 1) bs, Nat.xor_cancel_right]

theorem ctrX_invol (key iv msg : List Nat) : ctrX key iv (ctrX key iv msg) = msg :=
  ctrXAux_invol _ 0 msg

theorem xorSum_lt : ∀ {bs : List Nat}, (∀ b ∈ bs, b < 256) → xorSum bs < 256
  | [], _ => by simp [xorSum]
  | b :: bs, h => by
    have h1 : b < 2 ^ 8 := by simpa using h b (List.mem_cons_self _ _)
    have h2 : xorSum bs < 2 ^ 8 := by
      simpa using xorSum_lt (fun y hy => h y (List.mem_cons_of_mem _ hy))
    simpa [xorSum] using Nat.xor_lt_two_pow h1 h2

theorem xorSum_set : ∀ (bs : List Nat) (i b : Nat), i < bs.length →
    xorSum (bs.set i b) = xorSum bs ^^^ (bs.getD i 0 ^^^ b)
  | [], i, b, h => by simp at h
  | x :: bs, 0, b, _ => by
    simp only [List.set, xorSum, List.getD_cons_zero]
    rw [Nat.xor_comm x (xorSum bs), Nat.xor_assoc, Nat.xor_cancel_left, Nat.xor_comm]
  | x :: bs, i + 1, b, h => by
    have ih := xorSum_set bs i b (by simpa using h)
    simp only [List.set, xorSum, List.getD_cons_succ, ih, Nat.xor_assoc]

theorem gtagX_length (key iv ct : List Nat) : (gtagX key iv ct).length = 16 := by
  simp [gtagX]

theorem gtagX_lt (key iv ct : List Nat) (h : ∀ b ∈ ct, b < 256) :
    ∀ b ∈ gtagX key iv ct, b < 256 := by
  intro b hb
  simp only [gtagX, List.mem_cons] at hb
  rcases hb with rfl | hb
  · have h1 : (key.sum + iv.sum) % 256 < 2 ^ 8 := by
      simpa using Nat.mod_lt (key.sum + iv.sum) (show 0 < 256 by omega)
    have h2 : xorSum ct < 2 ^ 8 := by simpa using xorSum_lt h
    simpa using Nat.xor_lt_two_pow h1 h2
  · have := List.eq_of_mem_replicate hb
    omega

theorem gtagX_sensitive (key iv : List Nat) :
    ∀ (ct : List Nat) (j b : Nat), j < ct.length → b ≠ ct.getD j 0 →
    gtagX key iv (ct.set j b) ≠ gtagX key iv ct := by
  intro ct j b hj hb heq
  simp only [gtagX, List.cons.injEq] at heq
  have hsum : xorSum (ct.set j b) = xorSum ct := by
    have hK := heq.1
    set K := (key.sum + iv.sum) % 256 with hKdef
    rw [← Nat.xor_cancel_left K (xorSum (ct.set j b)), hK, Nat.xor_cancel_left]
  rw [xorSum_set ct j b hj] at hsum
  have hzero : ct.getD j 0 ^^^ b = 0 := by
    rw [← Nat.xor_cancel_left (xorSum ct) (ct.getD j 0 ^^^ b), hsum, Nat.xor_self]
  exact hb (Nat.xor_eq_zero.mp hzero).symm

/-! ## Lemmas: hex-level single-character substitution -/

theorem nodeHexDecode_hexEncode_set :
    ∀ (bs : List Nat), (∀ b ∈ bs, b < 256) → ∀ (j : Nat) (c : Char) (v : Nat),
      j < (hexEncode bs).length → hexVal c = some v →
      hexVal ((hexEncode bs).getD j ' ') ≠ some v →
      ∃ b2, b2 < 256 ∧ b2 ≠ bs.getD (j / 2) 0 ∧
        nodeHexDecode ((hexEncode bs).set j c) = bs.set (j / 2) b2
  | [], _, j, c, v, hj, _, _ => by simp [hexEncode] at hj
  | b :: bs, hb, 0, c, v, hj, hv, hne => by
    have hblt : b < 256 := hb b (List.mem_cons_self _ _)
    have hhi : b / 16 < 16 := Nat.div_lt_of_lt_mul (by omega)
    have hlo : b % 16 < 16 := Nat.mod_lt _ (by omega)
    have hvlt : v < 16 := hexVal_lt hv
    have htail : ∀ x ∈ bs, x < 256 := fun x hx => hb x (List.mem_cons_of_mem _ hx)
    rw [show hexEncode (b :: bs) =
      hexDigitChar (b / 16) :: hexDigitChar (b % 16) :: hexEncode bs from rfl] at hne ⊢
    rw [List.getD_cons_zero, hexVal_hexDigitChar hhi] at hne
    have hne2 : b / 16 ≠ v := fun hg => hne (by rw [hg])
    refine ⟨16 * v + b % 16, by omega, ?_, ?_⟩
    · rw [show (0 : Nat) / 2 = 0 by omega, List.getD_cons_zero]
      omega
    · rw [show (0 : Nat) / 2 = 0 by omega]
      simp only [List.set, nodeHexDecode, hv, hexVal_hexDigitChar hlo,
        nodeHexDecode_hexEncode htail]
  | b :: bs, hb, 1, c, v, hj, hv, hne => by
    have hblt : b < 256 := hb b (List.mem_cons_self _ _)
    have hhi : b / 16 < 16 := Nat.div_lt_of_lt_mul (by omega)
    have hlo : b % 16 < 16 := Nat.mod_lt _ (by omega)
    have hvlt : v < 16 := hexVal_lt hv
    have htail : ∀ x ∈ bs, x < 256 := fun x hx => hb x (List.mem_cons_of_mem _ hx)
    rw [show hexEncode (b :: bs) =
      hexDigitChar (b / 16) :: hexDigitChar (b % 16) :: hexEncode bs from rfl] at hne ⊢
    rw [List.getD_cons_succ, List.getD_cons_zero, hexVal_hexDigitChar hlo] at hne
    have hne2 : b % 16 ≠ v := fun hg => hne (by rw [hg])
    refine ⟨16 * (b / 16) + v, by omega, ?_, ?_⟩
    · rw [show (1 : Nat) / 2 = 0 by omega, List.getD_cons_zero]
      omega
    · rw [show (1 : Nat) / 2 = 0 by omega]
      simp only [List.set, nodeHexDecode, hv, hexVal_hexDigitChar hhi,
        nodeHexDecode_hexEncode htail]
  | b :: bs, hb, j + 2, c, v, hj, hv, hne => by
    have hblt : b < 256 := hb b (List.mem_cons_self _ _)
    have hhi : b / 16 < 16 := Nat.div_lt_of_lt_mul (by omega)
    have hlo : b % 16 < 16 := Nat.mod_lt _ (by omega)
    have htail : ∀ x ∈ bs, x < 256 := fun x hx => hb x (List.mem_cons_of_mem _ hx)
    rw [show hexEncode (b :: bs) =
      hexDigitChar (b / 16) :: hexDigitChar (b % 16) :: hexEncode bs from rfl] at hj hne ⊢
    rw [List.getD_cons_succ, List.getD_cons_succ] at hne
    simp only [List.length_cons] at hj
    obtain ⟨b2, hb2lt, hb2ne, hdec⟩ :=
      nodeHexDecode_hexEncode_set bs htail j c v (by omega) hv hne
    refine ⟨b2, hb2lt, ?_, ?_⟩
    · rw [show (j + 2) / 2 = j / 2 + 1 by omega, List.getD_cons_succ]
      exact hb2ne
    · simp only [List.set, nodeHexDecode, hexVal_hexDigitChar hhi,
        hexVal_hexDigitChar hlo, hdec]
      rw [show (j + 2) / 2 = j / 2 + 1 by omega]
      simp only [List.set]
      congr 1
      omega

/-! ## Lemmas: the cipher wrappers -/

theorem getEncryptionKey_ok {key : JStr} (hk : key.length = 64) :
    getEncryptionKey (some key) = .ok (nodeHexDecode key) := by
  simp [getEncryptionKey, hk]

theorem decodedKey_length {key : JStr} (hk : key.length = 64) (hx : isHexStr key = true) :
    (nodeHexDecode key).length = 32 := by
  rw [nodeHexDecode_length_of_hex key hx, hk]

theorem encrypt_ok (ctrMode gcmTag : List Nat → List Nat → List Nat → List Nat)
    {key : JStr} (hk : key.length = 64) (hx : isHexStr key = true)
    {iv pt : List Nat} (hiv : iv ≠ []) (hpt : pt ≠ []) :
    encrypt ctrMode gcmTag (some key) iv pt =
      .ok (some (hexEncode iv ++
        ':' :: hexEncode (gcmTag (nodeHexDecode key) iv (ctrMode (nodeHexDecode key) iv pt)) ++
        ':' :: hexEncode (ctrMode (nodeHexDecode key) iv pt))) := by
  have hklen : (nodeHexDecode key).length = 32 := decodedKey_length hk hx
  have hpt2 : pt.isEmpty = false := by
    cases pt with
    | nil => exact absurd rfl hpt
    | cons a l => rfl
  have hiv2 : iv.isEmpty = false := by
    cases iv with
    | nil => exact absurd rfl hiv
    | cons a l => rfl
  simp [encrypt, getEncryptionKey_ok hk, hklen, hpt2, hiv2]

/-- Evaluation of `decrypt` on a well-formed three-segment input whose
guards all pass, leaving only the tag comparison. -/
theorem decrypt_wellformed (ctrMode gcmTag : List Nat → List Nat → List Nat → List Nat)
    {key : JStr} (hk : key.length = 64) (hx : isHexStr key = true)
    {a b c : JStr} (ha : ':' ∉ a) (hbc : ':' ∉ b) (hcc : ':' ∉ c)
    (hivne : ¬ (nodeHexDecode a).isEmpty = true)
    (htlen : gcmTagLengthOk (nodeHexDecode b).length = true) :
    decrypt ctrMode gcmTag (some key) (some (a ++ ':' :: b ++ ':' :: c)) =
      if nodeHexDecode b =
          (gcmTag (nodeHexDecode key) (nodeHexDecode a) (nodeHexDecode c)).take
            (nodeHexDecode b).length
      then .ok (some (ctrMode (nodeHexDecode key) (nodeHexDecode a) (nodeHexDecode c)))
      else .error .authenticationError := by
  have hklen : (nodeHexDecode key).length = 32 := decodedKey_length hk hx
  have hsne : (a ++ ':' :: b ++ ':' :: c).isEmpty = false := by
    cases a <;> rfl
  have hsplit := splitOnColon_triple ha hbc hcc
  simp only [decrypt, hsne, Bool.false_eq_true, if_false, getEncryptionKey_ok hk, hsplit,
    List.length_cons, List.length_nil, List.getD_cons_zero, List.getD_cons_succ]
  rw [if_neg (by omega), if_neg (by omega), if_neg (by simpa using hivne),
    if_neg (by simpa using htlen)]
  by_cases heq : nodeHexDecode b =
      (gcmTag (nodeHexDecode key) (nodeHexDecode a) (nodeHexDecode c)).take
        (nodeHexDecode b).length
  · rw [if_pos heq, if_neg (by simpa using heq)]
  · rw [if_neg heq, if_pos (by simpa using heq)]

/-- C3: for every non-empty plaintext (given by its UTF-8 bytes),
decrypting the output of encrypt under the same well-configured 256-bit
key returns exactly the original plaintext, for any cipher core
satisfying the GCM contract (involutive length-preserving keystream,
16-byte deterministic byte-valued tag). -/
theorem decrypt_encrypt_roundtrip
    (ctrMode gcmTag : List Nat → List Nat → List Nat → List Nat)
    (hctrinv : ∀ k i m, ctrMode k i (ctrMode k i m) = m)
    (hctrbytes : ∀ k i m, (∀ x ∈ m, x < 256) → ∀ x ∈ ctrMode k i m, x < 256)
    (htaglen : ∀ k i ct, (gcmTag k i ct).length = 16)
    (htagbytes : ∀ k i ct, (∀ x ∈ ct, x < 256) → ∀ x ∈ gcmTag k i ct, x < 256)
    {key : JStr} (hk : key.length = 64) (hx : isHexStr key = true)
    {iv pt : List Nat} (hiv : iv.length = 16) (hivb : ∀ x ∈ iv, x < 256)
    (hpt : pt ≠ []) (hptb : ∀ x ∈ pt, x < 256) :
    (encrypt ctrMode gcmTag (some key) iv pt).bind
      (fun enc => decrypt ctrMode gcmTag (some key) enc) = .ok (some pt) := by
  have hivne : iv ≠ [] := by
    intro h
    rw [h] at hiv
    simp at hiv
  have hctb : ∀ x ∈ ctrMode (nodeHexDecode key) iv pt, x < 256 :=
    hctrbytes _ _ _ hptb
  have htgb : ∀ x ∈ gcmTag (nodeHexDecode key) iv (ctrMode (nodeHexDecode key) iv pt),
      x < 256 := htagbytes _ _ _ hctb
  rw [encrypt_ok ctrMode gcmTag hk hx hivne hpt]
  simp only [Except.bind]
  rw [decrypt_wellformed ctrMode gcmTag hk hx (colon_not_mem_hexEncode hivb)
    (colon_not_mem_hexEncode htgb) (colon_not_mem_hexEncode hctb)
    (by simp [nodeHexDecode_hexEncode hivb, List.isEmpty_iff, hivne])
    (by rw [nodeHexDecode_hexEncode htgb]
        rw [htaglen]
        decide)]
  rw [nodeHexDecode_hexEncode hivb, nodeHexDecode_hexEncode htgb,
    nodeHexDecode_hexEncode hctb]
  rw [if_pos (by rw [htaglen, ← htaglen (nodeHexDecode key) iv
        (ctrMode (nodeHexDecode key) iv pt), List.take_length])]
  rw [hctrinv]

/-- C3 witness: the round trip evaluated at the concrete cipher
instance, key, IV and plaintext. -/
theorem decrypt_encrypt_roundtrip_witness :
    (encrypt ctrX gtagX (some key0) iv0 pt0).bind
      (fun enc => decrypt ctrX gtagX (some key0) enc) = .ok (some pt0) :=
  decrypt_encrypt_roundtrip ctrX gtagX
    (fun k i m => ctrX_invol k i m)
    (fun k i m h => ctrX_lt k i m h)
    (fun k i ct => gtagX_length k i ct)
    (fun k i ct h => gtagX_lt k i ct h)
    (by decide) (by decide) (by decide) (by decide) (by decide) (by decide)

/-- C10: the encoded string returned by encrypt always splits on colons
into exactly three segments, each of them valid hex (hex encoding never
contains a colon), the first being the 32 hex characters of the 16-byte
IV and the second the 32 hex characters of the 16-byte GCM tag; hence
every encrypt output passes the segment-count format check of decrypt
and never produces its format error. -/
theorem encrypt_output_wellformed
    (ctrMode gcmTag : List Nat → List Nat → List Nat → List Nat)
    (hctrbytes : ∀ k i m, (∀ x ∈ m, x < 256) → ∀ x ∈ ctrMode k i m, x < 256)
    (htaglen : ∀ k i ct, (gcmTag k i ct).length = 16)
    (htagbytes : ∀ k i ct, (∀ x ∈ ct, x < 256) → ∀ x ∈ gcmTag k i ct, x < 256)
    {key : JStr} (hk : key.length = 64) (hx : isHexStr key = true)
    {iv pt : List Nat} (hiv : iv.length = 16) (hivb : ∀ x ∈ iv, x < 256)
    (hpt : pt ≠ []) (hptb : ∀ x ∈ pt, x < 256) :
    ∃ enc, encrypt ctrMode gcmTag (some key) iv pt = .ok (some enc) ∧
      (splitOnColon enc).length = 3 ∧
      (∀ seg ∈ splitOnColon enc, isHexStr seg = true) ∧
      ((splitOnColon enc).getD 0 []).length = 32 ∧
      ((splitOnColon enc).getD 1 []).length = 32 ∧
      decrypt ctrMode gcmTag (some key) (some enc) ≠ .error .formatError := by
  have hivne : iv ≠ [] := by
    intro h
    rw [h] at hiv
    simp at hiv
  have hctb : ∀ x ∈ ctrMode (nodeHexDecode key) iv pt, x < 256 :=
    hctrbytes _ _ _ hptb
  have htgb : ∀ x ∈ gcmTag (nodeHexDecode key) iv (ctrMode (nodeHexDecode key) iv pt),
      x < 256 := htagbytes _ _ _ hctb
  have hsplit := splitOnColon_triple (colon_not_mem_hexEncode hivb)
    (colon_not_mem_hexEncode htgb) (colon_not_mem_hexEncode hctb)
  refine ⟨_, encrypt_ok ctrMode gcmTag hk hx hivne hpt, ?_, ?_, ?_, ?_, ?_⟩
  · rw [hsplit]
    rfl
  · rw [hsplit]
    intro seg hseg
    simp only [List.mem_cons, List.not_mem_nil, or_false] at hseg
    rcases hseg with rfl | rfl | rfl
    · exact isHexStr_hexEncode hivb
    · exact isHexStr_hexEncode htgb
    · exact isHexStr_hexEncode hctb
  · rw [hsplit, List.getD_cons_zero, hexEncode_length, hiv]
  · rw [hsplit, List.getD_cons_succ, List.getD_cons_zero, hexEncode_length, htaglen]
  · rw [decrypt_wellformed ctrMode gcmTag hk hx (colon_not_mem_hexEncode hivb)
      (colon_not_mem_hexEncode htgb) (colon_not_mem_hexEncode hctb)
      (by simp [nodeHexDecode_hexEncode hivb, List.isEmpty_iff, hivne])
      (by rw [nodeHexDecode_hexEncode htgb]
          rw [htaglen]
          decide)]
    split <;> simp

/-- C10 witness: the well-formedness facts evaluated at the concrete
cipher instance, key, IV and plaintext. -/
theorem encrypt_output_wellformed_witness :
    ∃ enc, encrypt ctrX gtagX (some key0) iv0 pt0 = .ok (some enc) ∧
      (splitOnColon enc).length = 3 ∧
      (∀ seg ∈ splitOnColon enc, isHexStr seg = true) ∧
      ((splitOnColon enc).getD 0 []).length = 32 ∧
      ((splitOnColon enc).getD 1 []).length = 32 ∧
      decrypt ctrX gtagX (some key0) (some enc) ≠ .error .formatError :=
  encrypt_output_wellformed ctrX gtagX
    (fun k i m h => ctrX_lt k i m h)
    (fun k i ct => gtagX_length k i ct)
    (fun k i ct h => gtagX_lt k i ct h)
    (by decide) (by decide) (by decide) (by decide) (by decide) (by decide)

/-- C8: two encrypt calls on the same plaintext whose freshly drawn
16-byte IVs differ produce different encoded strings, and in particular
different first (IV) segments. -/
theorem encrypt_iv_uniqueness
    (ctrMode gcmTag : List Nat → List Nat → List Nat → List Nat)
    (hctrbytes : ∀ k i m, (∀ x ∈ m, x < 256) → ∀ x ∈ ctrMode k i m, x < 256)
    (htagbytes : ∀ k i ct, (∀ x ∈ ct, x < 256) → ∀ x ∈ gcmTag k i ct, x < 256)
    {key : JStr} (hk : key.length = 64) (hx : isHexStr key = true)
    {iv1 iv2 pt : List Nat} (h1 : iv1.length = 16) (h2 : iv2.length = 16)
    (hb1 : ∀ x ∈ iv1, x < 256) (hb2 : ∀ x ∈ iv2, x < 256)
    (hne : iv1 ≠ iv2) (hpt : pt ≠ []) (hptb : ∀ x ∈ pt, x < 256) :
    encrypt ctrMode gcmTag (some key) iv1 pt ≠ encrypt ctrMode gcmTag (some key) iv2 pt ∧
    ∀ e1 e2, encrypt ctrMode gcmTag (some key) iv1 pt = .ok (some e1) →
      encrypt ctrMode gcmTag (some key) iv2 pt = .ok (some e2) →
      (splitOnColon e1).getD 0 [] ≠ (splitOnColon e2).getD 0 [] := by
  have hivne1 : iv1 ≠ [] := by
    intro h
    rw [h] at h1
    simp at h1
  have hivne2 : iv2 ≠ [] := by
    intro h
    rw [h] at h2
    simp at h2
  have hseg : ∀ e1 e2, encrypt ctrMode gcmTag (some key) iv1 pt = .ok (some e1) →
      encrypt ctrMode gcmTag (some key) iv2 pt = .ok (some e2) →
      (splitOnColon e1).getD 0 [] ≠ (splitOnColon e2).getD 0 [] := by
    intro e1 e2 he1 he2
    rw [encrypt_ok ctrMode gcmTag hk hx hivne1 hpt] at he1
    rw [encrypt_ok ctrMode gcmTag hk hx hivne2 hpt] at he2
    have he1 := (Option.some.injEq _ _).mp ((Except.ok.injEq _ _).mp he1.symm)
    have he2 := (Option.some.injEq _ _).mp ((Except.ok.injEq _ _).mp he2.symm)
    subst he1
    subst he2
    rw [splitOnColon_triple (colon_not_mem_hexEncode hb1)
      (colon_not_mem_hexEncode (htagbytes _ _ _ (hctrbytes _ _ _ hptb)))
      (colon_not_mem_hexEncode (hctrbytes _ _ _ hptb))]
    rw [splitOnColon_triple (colon_not_mem_hexEncode hb2)
      (colon_not_mem_hexEncode (htagbytes _ _ _ (hctrbytes _ _ _ hptb)))
      (colon_not_mem_hexEncode (hctrbytes _ _ _ hptb))]
    simp only [List.getD_cons_zero]
    intro heq
    exact hne (hexEncode_injective hb1 hb2 heq)
  refine ⟨?_, hseg⟩
  intro heq
  rw [encrypt_ok ctrMode gcmTag hk hx hivne1 hpt,
    encrypt_ok ctrMode gcmTag hk hx hivne2 hpt] at heq
  have hee := (Option.some.injEq _ _).mp ((Except.ok.injEq _ _).mp heq)
  exact hseg _ _ (encrypt_ok ctrMode gcmTag hk hx hivne1 hpt)
    (encrypt_ok ctrMode gcmTag hk hx hivne2 hpt) (by rw [hee])

/-- C8 witness: two concrete encrypt calls with different IVs produce
different encoded strings with different IV segments. -/
theorem encrypt_iv_uniqueness_witness :
    encrypt ctrX gtagX (some key0) iv0 pt0 ≠ encrypt ctrX gtagX (some key0) iv1 pt0 ∧
    ∀ e1 e2, encrypt ctrX gtagX (some key0) iv0 pt0 = .ok (some e1) →
      encrypt ctrX gtagX (some key0) iv1 pt0 = .ok (some e2) →
      (splitOnColon e1).getD 0 [] ≠ (splitOnColon e2).getD 0 [] :=
  encrypt_iv_uniqueness ctrX gtagX
    (fun k i m h => ctrX_lt k i m h)
    (fun k i ct h => gtagX_lt k i ct h)
    (by decide) (by decide) (by decide) (by decide) (by decide) (by decide)
    (by decide) (by decide) (by decide)

/-! ## Claims about getEncryptionKey and decrypt format checking -/

/-- C7 (amended): `getEncryptionKey` raises its configuration error
exactly when the variable is unset or not 64 characters long.  Hex
validity is NOT checked: any 64-character value is accepted, and the
returned buffer has 32 bytes exactly when the value is valid hex. -/
theorem getEncryptionKey_config_iff (envKey : Option JStr) :
    (getEncryptionKey envKey = .error .configError ↔
      (envKey = none ∨ ∀ s, envKey = some s → s.length ≠ 64)) ∧
    (∀ s, envKey = some s → s.length = 64 →
      getEncryptionKey envKey = .ok (nodeHexDecode s) ∧
      (isHexStr s = true → (nodeHexDecode s).length = 32)) := by
  constructor
  · cases envKey with
    | none => simp [getEncryptionKey]
    | some s =>
      by_cases h : s.length = 64
      · simp [getEncryptionKey, h]
      · simp [getEncryptionKey, h]
  · intro s hs h64
    subst hs
    exact ⟨getEncryptionKey_ok h64, fun hx => decodedKey_length h64 hx⟩

/-- C7 amended witness: a 64-hex-character key loads successfully and
decodes to 32 bytes. -/
theorem getEncryptionKey_config_iff_witness :
    getEncryptionKey (some key0) = .ok (nodeHexDecode key0) ∧
    (nodeHexDecode key0).length = 32 :=
  ⟨((getEncryptionKey_config_iff (some key0)).2 key0 rfl (by decide)).1,
   ((getEncryptionKey_config_iff (some key0)).2 key0 rfl (by decide)).2 (by decide)⟩

/-- C7 counterexample: a 64-character value made of letters z does not
hex-decode to 32 bytes (its lenient decode is empty), yet key loading
succeeds without a configuration error, refuting the claimed
equivalence between failing fast and not decoding to 32 bytes. -/
theorem getEncryptionKey_nonhex_counterexample :
    keyZ.length = 64 ∧
    getEncryptionKey (some keyZ) = .ok [] ∧
    (nodeHexDecode keyZ).length ≠ 32 :=
  ⟨by decide, rfl, by decide⟩

/-- C4 (amended): with a configured 64-character key and a non-empty
input, decrypt raises the format error exactly when the input does not
split into three colon-separated segments.  Hex validity of the
segments is not part of this check; a three-segment input with non-hex
segments proceeds to the crypto layer and fails there with a different
error kind. -/
theorem decrypt_formatError_iff
    (ctrMode gcmTag : List Nat → List Nat → List Nat → List Nat)
    {key : JStr} (hk : key.length = 64) {s : JStr} (hs : s ≠ []) :
    decrypt ctrMode gcmTag (some key) (some s) = .error .formatError ↔
      (splitOnColon s).length ≠ 3 := by
  have hsne : s.isEmpty = false := by simp [List.isEmpty_iff, hs]
  simp only [decrypt, hsne, Bool.false_eq_true, if_false, getEncryptionKey_ok hk]
  by_cases h3 : (splitOnColon s).length = 3
  · rw [if_neg (by omega)]
    split_ifs <;> simp [h3]
  · rw [if_pos h3]
    simp [h3]

/-- C4 amended witness: a two-character single-segment input raises the
format error. -/
theorem decrypt_formatError_iff_witness :
    decrypt ctrX gtagX (some key0) (some ['a', 'b']) = .error .formatError :=
  (decrypt_formatError_iff ctrX gtagX (by decide) (by decide)).mpr (by decide)

/-- C4 counterexample: zz:zz:zz has exactly three colon-separated
segments, none of them valid hex.  The claim requires a format error,
but decrypt passes the segment-count check and fails in the crypto
layer with the invalid-IV error (the lenient hex decode of zz is
empty), a different error kind.  Moreover the empty string, which does
not parse into three hex segments either, returns null instead of
failing at all. -/
theorem decrypt_nonhex_counterexample :
    decrypt ctrX gtagX (some key0) (some ((r"zz:zz:zz").data)) = .error .invalidIV ∧
    CipherError.invalidIV ≠ CipherError.formatError ∧
    decrypt ctrX gtagX (some key0) (some []) = .ok none :=
  ⟨rfl, by decide, rfl⟩

/-! ## Claims about tamper detection -/

theorem mem_of_mem_set {α : Type} : ∀ (l : List α) (i : Nat) (b a : α),
    a ∈ l.set i b → a = b ∨ a ∈ l
  | [], _, _, _, h => by simp at h
  | x :: xs, 0, b, a, h => by
    simp only [List.set, List.mem_cons] at h
    rcases h with rfl | h
    · exact Or.inl rfl
    · exact Or.inr (List.mem_cons_of_mem _ h)
  | x :: xs, i + 1, b, a, h => by
    simp only [List.set, List.mem_cons] at h
    rcases h with rfl | h
    · exact Or.inr (List.mem_cons_self _ _)
    · rcases mem_of_mem_set xs i b a h with h2 | h2
      · exact Or.inl h2
      · exact Or.inr (List.mem_cons_of_mem _ h2)

/-- C5 (amended): for an encoded secret produced by encrypt, replacing
any single hex character of the tag segment or of the ciphertext
segment by a hex character with a different digit value makes decrypt
fail with the authentication error, an error kind distinct from the
format error; in particular decrypt returns no plaintext for such a
tampered input.  Replacements that merely change the letter case of a
hex digit decode to the same bytes and are not detected (see the
counterexample), which is the only correction to the original claim. -/
theorem decrypt_tamper_value_flip
    (ctrMode gcmTag : List Nat → List Nat → List Nat → List Nat)
    (hctrbytes : ∀ k i m, (∀ x ∈ m, x < 256) → ∀ x ∈ ctrMode k i m, x < 256)
    (htaglen : ∀ k i ct, (gcmTag k i ct).length = 16)
    (htagbytes : ∀ k i ct, (∀ x ∈ ct, x < 256) → ∀ x ∈ gcmTag k i ct, x < 256)
    (htagsens : ∀ k i ct j b, j < ct.length → b ≠ ct.getD j 0 →
      gcmTag k i (ct.set j b) ≠ gcmTag k i ct)
    {key : JStr} (hk : key.length = 64) (hx : isHexStr key = true)
    {iv pt : List Nat} (hiv : iv.length = 16) (hivb : ∀ x ∈ iv, x < 256)
    (hpt : pt ≠ []) (hptb : ∀ x ∈ pt, x < 256) :
    CipherError.authenticationError ≠ CipherError.formatError ∧
    encrypt ctrMode gcmTag (some key) iv pt = .ok (some (hexEncode iv ++
      ':' :: hexEncode (gcmTag (nodeHexDecode key) iv (ctrMode (nodeHexDecode key) iv pt)) ++
      ':' :: hexEncode (ctrMode (nodeHexDecode key) iv pt))) ∧
    (∀ j c v, hexVal c = some v →
      hexVal ((hexEncode (gcmTag (nodeHexDecode key) iv
        (ctrMode (nodeHexDecode key) iv pt))).getD j ' ') ≠ some v →
      j < (hexEncode (gcmTag (nodeHexDecode key) iv
        (ctrMode (nodeHexDecode key) iv pt))).length →
      decrypt ctrMode gcmTag (some key)
        (some (hexEncode iv ++ ':' ::
          (hexEncode (gcmTag (nodeHexDecode key) iv
            (ctrMode (nodeHexDecode key) iv pt))).set j c ++
          ':' :: hexEncode (ctrMode (nodeHexDecode key) iv pt))) =
        .error .authenticationError) ∧
    (∀ j c v, hexVal c = some v →
      hexVal ((hexEncode (ctrMode (nodeHexDecode key) iv pt)).getD j ' ') ≠ some v →
      j < (hexEncode (ctrMode (nodeHexDecode key) iv pt)).length →
      decrypt ctrMode gcmTag (some key)
        (some (hexEncode iv ++ ':' ::
          hexEncode (gcmTag (nodeHexDecode key) iv (ctrMode (nodeHexDecode key) iv pt)) ++
          ':' :: (hexEncode (ctrMode (nodeHexDecode key) iv pt)).set j c)) =
        .error .authenticationError) := by
  have hivne : iv ≠ [] := by
    intro h
    rw [h] at hiv
    simp at hiv
  have hctb : ∀ x ∈ ctrMode (nodeHexDecode key) iv pt, x < 256 :=
    hctrbytes _ _ _ hptb
  have htgb : ∀ x ∈ gcmTag (nodeHexDecode key) iv (ctrMode (nodeHexDecode key) iv pt),
      x < 256 := htagbytes _ _ _ hctb
  refine ⟨by decide, encrypt_ok ctrMode gcmTag hk hx hivne hpt, ?_, ?_⟩
  · intro j c v hv hne hj
    obtain ⟨b2, hb2lt, hb2ne, hdec⟩ :=
      nodeHexDecode_hexEncode_set _ htgb j c v hj hv hne
    have hcol : ':' ∉ (hexEncode (gcmTag (nodeHexDecode key) iv
        (ctrMode (nodeHexDecode key) iv pt))).set j c := by
      intro hmem
      rcases mem_of_mem_set _ _ _ _ hmem with h2 | h2
      · exact ne_colon_of_hexVal hv h2.symm
      · exact colon_not_mem_hexEncode htgb h2
    rw [decrypt_wellformed ctrMode gcmTag hk hx (colon_not_mem_hexEncode hivb)
      hcol (colon_not_mem_hexEncode hctb)
      (by simp [nodeHexDecode_hexEncode hivb, List.isEmpty_iff, hivne])
      (by rw [hdec, List.length_set, htaglen]
          decide)]
    rw [if_neg ?_]
    rw [hdec, nodeHexDecode_hexEncode hivb, nodeHexDecode_hexEncode hctb,
      List.length_set, htaglen]
    rw [show (16 : Nat) = (gcmTag (nodeHexDecode key) iv
      (ctrMode (nodeHexDecode key) iv pt)).length from (htaglen _ _ _).symm,
      List.take_length]
    intro heq
    have hjlt : j / 2 < (gcmTag (nodeHexDecode key) iv
        (ctrMode (nodeHexDecode key) iv pt)).length := by
      rw [hexEncode_length] at hj
      omega
    have hsetlt : j / 2 < ((gcmTag (nodeHexDecode key) iv
        (ctrMode (nodeHexDecode key) iv pt)).set (j / 2) b2).length := by
      rw [List.length_set]
      exact hjlt
    have h1 : ((gcmTag (nodeHexDecode key) iv
        (ctrMode (nodeHexDecode key) iv pt)).set (j / 2) b2).getD (j / 2) 0 = b2 := by
      rw [List.getD_eq_getElem _ _ hsetlt]
      exact List.getElem_set_self hsetlt
    have h2 := congrArg (fun l => l.getD (j / 2) 0) heq
    simp only [h1] at h2
    exact hb2ne h2
  · intro j c v hv hne hj
    obtain ⟨b2, hb2lt, hb2ne, hdec⟩ :=
      nodeHexDecode_hexEncode_set _ hctb j c v hj hv hne
    have hcol : ':' ∉ (hexEncode (ctrMode (nodeHexDecode key) iv pt)).set j c := by
      intro hmem
      rcases mem_of_mem_set _ _ _ _ hmem with h2 | h2
      · exact ne_colon_of_hexVal hv h2.symm
      · exact colon_not_mem_hexEncode hctb h2
    rw [decrypt_wellformed ctrMode gcmTag hk hx (colon_not_mem_hexEncode hivb)
      (colon_not_mem_hexEncode htgb) hcol
      (by simp [nodeHexDecode_hexEncode hivb, List.isEmpty_iff, hivne])
      (by rw [nodeHexDecode_hexEncode htgb, htaglen]
          decide)]
    rw [if_neg ?_]
    rw [hdec, nodeHexDecode_hexEncode hivb, nodeHexDecode_hexEncode htgb, htaglen]
    rw [show (16 : Nat) = (gcmTag (nodeHexDecode key) iv
      ((ctrMode (nodeHexDecode key) iv pt).set (j / 2) b2)).length
      from (htaglen _ _ _).symm, List.take_length]
    have hjlt : j / 2 < (ctrMode (nodeHexDecode key) iv pt).length := by
      rw [hexEncode_length] at hj
      omega
    intro heq
    exact htagsens (nodeHexDecode key) iv _ (j / 2) b2 hjlt hb2ne heq.symm

/-- C5 amended witness: a value-changing flip of the first tag-segment
hex character on the concrete instance is rejected with the
authentication error. -/
theorem decrypt_tamper_value_flip_witness :
    decrypt ctrX gtagX (some key0)
      (some (hexEncode iv0 ++ ':' ::
        (hexEncode (gtagX (nodeHexDecode key0) iv0
          (ctrX (nodeHexDecode key0) iv0 pt0))).set 0 '1' ++
        ':' :: hexEncode (ctrX (nodeHexDecode key0) iv0 pt0))) =
      .error .authenticationError :=
  ((decrypt_tamper_value_flip ctrX gtagX
    (fun k i m h => ctrX_lt k i m h)
    (fun k i ct => gtagX_length k i ct)
    (fun k i ct h => gtagX_lt k i ct h)
    (fun k i ct j b hj hb => gtagX_sensitive k i ct j b hj hb)
    (by decide) (by decide) (by decide) (by decide) (by decide) (by decide)).2.2.1)
    0 '1' 1 (by decide) (by decide) (by decide)

/-- C5 counterexample: flipping the single hex character at position 33
of a well-formed encoded secret — the first character of its tag
segment — from lowercase a to uppercase A yields a different string
with a flipped hex character in the tag segment, yet decrypt does not
fail with an authentication error: Node hex decoding is
case-insensitive, so it decodes to the same bytes and decrypt succeeds,
returning the original plaintext. -/
theorem decrypt_case_flip_counterexample :
    encrypt ctrX gtagX (some key0) iv0 pt0 = .ok (some enc0) ∧
    enc0Tampered = enc0.set 33 'A' ∧
    enc0Tampered ≠ enc0 ∧
    isHexChar 'A' = true ∧
    decrypt ctrX gtagX (some key0) (some enc0Tampered) = .ok (some pt0) :=
  ⟨rfl, by decide, by decide, by decide, rfl⟩

/-! ## Lemmas and claims: the webhook verifier -/

/-- Evaluation of the verifier once presence, freshness and secret
configuration pass: the outcome is decided by comparing the hex-decoded
received signature with the HMAC digest bytes (the decoded expected
buffer is exactly the digest, since hex decoding inverts hex encoding on
bytes), and the two rejection branches collapse to list equality. -/
theorem verify_checks_passed {sig ts : JStr} (body : Json) {sec : JStr} {now t : Int}
    (hsig : sig ≠ []) (hts : ts ≠ []) (hsec : sec ≠ [])
    (hparse : jsParseInt ts = some t) (hwin : (now - t).natAbs ≤ fiveMinutesMs) :
    verifyDeffatestWebhook (some sig) (some ts) body (some sec) now =
      if nodeHexDecode sig = hmacSha256Str sec (ts ++ jsonStringify body) then .ok
      else .invalidSignature := by
  have hdig := nodeHexDecode_hexEncode (hmacSha256Str_lt sec (ts ++ jsonStringify body))
  have hs1 : jsFalsy (some sig) = false := by simp [jsFalsy, List.isEmpty_iff, hsig]
  have hs2 : jsFalsy (some ts) = false := by simp [jsFalsy, List.isEmpty_iff, hts]
  have hs3 : sec.isEmpty = false := by simp [List.isEmpty_iff, hsec]
  unfold verifyDeffatestWebhook
  rw [hs1, hs2]
  simp only [Bool.or_self, Bool.false_eq_true, if_false, Option.getD_some, hparse,
    hs3, hdig]
  rw [if_neg (by omega)]
  by_cases heq : nodeHexDecode sig = hmacSha256Str sec (ts ++ jsonStringify body)
  · rw [if_pos heq, if_neg (by rw [heq]; omega), if_neg (by rw [heq]; simp)]
  · rw [if_neg heq]
    by_cases hlen : (nodeHexDecode sig).length =
        (hmacSha256Str sec (ts ++ jsonStringify body)).length
    · rw [if_neg (by omega), if_pos heq]
    · rw [if_pos hlen]

/-- C1 (amended): once presence, freshness and secret configuration
pass, the verifier accepts exactly when the received signature
hex-decodes to the byte buffer of HMAC-SHA256 over the timestamp header
concatenated with `JSON.stringify(req.body)` — the re-serialization of
the parsed body, not the raw request text the sender signed. -/
theorem verify_accepts_iff_stringified (sig ts : JStr) (body : Json) (sec : JStr)
    (now t : Int) (hsig : sig ≠ []) (hts : ts ≠ []) (hsec : sec ≠ [])
    (hparse : jsParseInt ts = some t) (hwin : (now - t).natAbs ≤ fiveMinutesMs) :
    verifyDeffatestWebhook (some sig) (some ts) body (some sec) now = .ok ↔
      nodeHexDecode sig = hmacSha256Str sec (ts ++ jsonStringify body) := by
  rw [verify_checks_passed body hsig hts hsec hparse hwin]
  by_cases heq : nodeHexDecode sig = hmacSha256Str sec (ts ++ jsonStringify body)
  · rw [if_pos heq]
    simp [heq]
  · rw [if_neg heq]
    simp [heq]

/-- C1 amended witness: a request signed over the timestamp followed by
the stringified body is accepted at a fresh clock. -/
theorem verify_accepts_iff_stringified_witness :
    verifyDeffatestWebhook (some sigStrC) (some tsC) body0 (some secC) 1001 = .ok :=
  (verify_accepts_iff_stringified sigStrC tsC body0 secC 1001 1000 (by decide) (by decide)
    (by decide) (by decide) (by decide)).mpr (by decide)

/-- C1 counterexample: the raw request text with a space inside the
braces serializes the empty-object body the sender posted, the received
signature hex-decodes exactly to HMAC-SHA256 over timestamp followed by
that raw text, presence, freshness and secret configuration all pass —
yet the verifier rejects with the invalid-signature response, because it
recomputes the HMAC over the re-serialized body, which dropped the
space. -/
theorem verify_raw_body_counterexample :
    Serializes rawBody0 body0 ∧
    nodeHexDecode sigRawC = hmacSha256Str secC (tsC ++ rawBody0) ∧
    verifyDeffatestWebhook (some sigRawC) (some tsC) body0 (some secC) 1000 =
      .invalidSignature := by
  refine ⟨?_, by decide, by decide⟩
  have h : SerializesVal rawBody0 body0 := SerializesVal.objEmpty [' '] (by decide)
  have h2 := SerializesElem.mk [] [] rawBody0 body0 (by simp) (by simp) h
  simpa using h2

/-- C6: with both headers present, the verifier rejects with the
stale-request response exactly when `parseInt` of the timestamp header
is NaN or the absolute clock distance exceeds five minutes. -/
theorem verify_stale_iff (sig ts : Option JStr) (body : Json) (sec : Option JStr)
    (now : Int) (hsig : jsFalsy sig = false) (hts : jsFalsy ts = false) :
    verifyDeffatestWebhook sig ts body sec now = .invalidTimestamp ↔
      (jsParseInt (ts.getD []) = none ∨
       ∃ t, jsParseInt (ts.getD []) = some t ∧ fiveMinutesMs < (now - t).natAbs) := by
  unfold verifyDeffatestWebhook
  rw [hsig, hts]
  simp only [Bool.or_self, Bool.false_eq_true, if_false]
  rcases hparse : jsParseInt (ts.getD []) with _ | t
  · simp [hparse]
  · simp only [hparse]
    by_cases hwin : fiveMinutesMs < (now - t).natAbs
    · rw [if_pos hwin]
      simp only [true_iff]
      exact Or.inr ⟨t, rfl, hwin⟩
    · rw [if_neg hwin]
      constructor
      · intro h
        exfalso
        cases sec with
        | none => simp at h
        | some s =>
          by_cases hs : s.isEmpty = true <;> simp only [hs, Bool.false_eq_true,
            if_true, if_false] at h
          · cases h
          · split at h
            · cases h
            · split at h <;> cases h
      · rintro (h1 | ⟨t2, ht2, hw2⟩)
        · cases h1
        · rw [Option.some.injEq] at ht2
          subst ht2
          exact absurd hw2 hwin

/-- C6 witness: with the worked example of the spec, verification at
six minutes after the timestamp is rejected as stale, and verification
at one millisecond after it is not. -/
theorem verify_stale_iff_witness :
    verifyDeffatestWebhook (some sigStrC) (some tsC) body0 (some secC) 361000 =
      .invalidTimestamp ∧
    verifyDeffatestWebhook (some sigStrC) (some tsC) body0 (some secC) 1001 ≠
      .invalidTimestamp := by
  constructor
  · exact (verify_stale_iff _ _ body0 _ _ (by decide) (by decide)).mpr
      (Or.inr ⟨1000, by decide, by decide⟩)
  · intro h
    rcases (verify_stale_iff _ _ body0 _ _ (by decide) (by decide)).mp h with h1 | ⟨t, ht, hw⟩
    · rw [show jsParseInt ((some tsC).getD []) = some 1000 from by decide] at h1
      cases h1
    · rw [show jsParseInt ((some tsC).getD []) = some 1000 from by decide] at ht
      rw [Option.some.injEq] at ht
      subst ht
      exact absurd hw (by decide)

/-- C2 (amended): with the shared secret unset (or empty), the verifier
never accepts any request; every request that passes the presence and
freshness checks is rejected with the server-configuration-error
response, while requests failing those earlier checks are rejected with
their own 401 error kinds, not with the configuration error. -/
theorem verify_unset_secret_fail_closed (sig ts : Option JStr) (body : Json)
    (sec : Option JStr) (now : Int) (hsec : jsFalsy sec = true) :
    verifyDeffatestWebhook sig ts body sec now ≠ .ok ∧
    (jsFalsy sig = false → jsFalsy ts = false →
      ∀ t, jsParseInt (ts.getD []) = some t → (now - t).natAbs ≤ fiveMinutesMs →
      verifyDeffatestWebhook sig ts body sec now = .serverConfigurationError) := by
  have hstep : jsFalsy sig = false → jsFalsy ts = false →
      ∀ t, jsParseInt (ts.getD []) = some t → (now - t).natAbs ≤ fiveMinutesMs →
      verifyDeffatestWebhook sig ts body sec now = .serverConfigurationError := by
    intro h1 h2 t hp hw
    unfold verifyDeffatestWebhook
    rw [h1, h2]
    simp only [Bool.or_self, Bool.false_eq_true, if_false, hp]
    rw [if_neg (by omega)]
    cases sec with
    | none => rfl
    | some s =>
      have hs : s.isEmpty = true := by simpa [jsFalsy] using hsec
      simp [hs]
  constructor
  · intro hok
    unfold verifyDeffatestWebhook at hok
    by_cases h1 : (jsFalsy sig || jsFalsy ts) = true
    · rw [if_pos h1] at hok
      cases hok
    · rw [if_neg h1] at hok
      rcases hparse : jsParseInt (ts.getD []) with _ | t <;>
        simp only [hparse] at hok
      · cases hok
      · by_cases hwin : fiveMinutesMs < (now - t).natAbs
        · rw [if_pos hwin] at hok
          cases hok
        · rw [if_neg hwin] at hok
          cases sec with
          | none => simp at hok
          | some s =>
            have hs : s.isEmpty = true := by simpa [jsFalsy] using hsec
            simp [hs] at hok
  · exact hstep

/-- C2 amended witness: with the secret unset, a fresh validly-formed
request is rejected with the server-configuration error, and is in
particular not accepted. -/
theorem verify_unset_secret_witness :
    verifyDeffatestWebhook (some sigStrC) (some tsC) body0 none 1000 ≠ .ok ∧
    verifyDeffatestWebhook (some sigStrC) (some tsC) body0 none 1000 =
      .serverConfigurationError :=
  ⟨(verify_unset_secret_fail_closed _ _ body0 _ _ (by decide)).1,
   (verify_unset_secret_fail_closed _ _ body0 _ _ (by decide)).2 (by decide) (by decide)
     1000 (by decide) (by decide)⟩

/-- C2 counterexample: with the secret unset, a request with a missing
signature header is rejected with the missing-credentials response, not
with the server-configuration error the claim requires for every
input. -/
theorem verify_unset_secret_counterexample :
    verifyDeffatestWebhook none (some tsC) body0 none 1000 = .missingSignature ∧
    VerifyResult.missingSignature ≠ VerifyResult.serverConfigurationError :=
  ⟨rfl, by decide⟩

/-- C9: the timestamp header 1000abc is not a decimal numeral, yet
`parseInt` reads its numeric prefix 1000, the freshness check passes at
clock 1000, and since the HMAC is computed over the original header
string the whole verification succeeds for a matching signature. -/
theorem verify_numeric_prefix_timestamp :
    jsParseInt tsC9 = some 1000 ∧
    tsC9.all (fun c => c.isDigit) = false ∧
    verifyDeffatestWebhook (some sigC9) (some tsC9) body0 (some secC) 1000 = .ok :=
  ⟨by decide, by decide, by decide⟩

end DeffatestSlack
